import Mathlib

/-!
Verification of the vs-snippets multi-replica reconciliation core.

The definitions below are a shallow embedding of the TypeScript source:
`src/extension.ts` (mergeFolders, mergeSnippets, the syncFromBackup command
handler), `src/storage/LocalStorage.ts` (sanitization, backup envelope
encode/decode, importData, deleteFolder/deleteSnippet, updateSnippet,
renameFolder/renameSnippet, updateFolderParent, updateFolderOrder),
`src/storage/GistStorage.ts` (the per-snippet push of `sync`) and
`src/sidebar/SnippetTreeDataProvider.ts` (search and tree projection).

JavaScript machine details are modelled as follows: timestamps are `Nat`
where `0` plays the role of a falsy/missing `lastModified` (`x || Date.now()`
becomes `if x = 0 then now else x`); missing object fields are `Option`;
a JavaScript `Map` keyed by record id is an insertion-ordered association
list (`Map.set` updates in place without moving the key, otherwise appends).
-/

namespace VsSnippets

/-! ## JavaScript string helpers -/

/-- `startsWithList a b` is true when `a` is an initial run of `b`
(characters compared one by one). -/
def startsWithList : List Char → List Char → Bool
  | [], _ => true
  | _ :: _, [] => false
  | a :: as, b :: bs => a = b && startsWithList as bs

/-- `containsList sub s` models JavaScript `s.includes(sub)`: `sub` occurs
contiguously somewhere inside `s`. -/
def containsList (sub : List Char) : List Char → Bool
  | [] => startsWithList sub []
  | b :: bs => startsWithList sub (b :: bs) || containsList sub bs

/-- JavaScript `s.includes(sub)` on strings. -/
def jsIncludes (s sub : String) : Bool :=
  containsList sub.toList s.toList

theorem startsWithList_iff (a b : List Char) :
    startsWithList a b = true ↔ ∃ rest, b = a ++ rest := by
  induction a generalizing b with
  | nil => simp [startsWithList]
  | cons x xs ih =>
    cases b with
    | nil =>
      simp [startsWithList]
    | cons y ys =>
      simp only [startsWithList, Bool.and_eq_true, decide_eq_true_eq, ih]
      constructor
      · rintro ⟨rfl, rest, rfl⟩
        exact ⟨rest, rfl⟩
      · rintro ⟨rest, h⟩
        cases h
        exact ⟨rfl, rest, rfl⟩

theorem containsList_iff (sub s : List Char) :
    containsList sub s = true ↔ ∃ pre post, s = pre ++ sub ++ post := by
  induction s with
  | nil =>
    simp only [containsList, startsWithList_iff]
    constructor
    · rintro ⟨rest, h⟩
      exact ⟨[], rest, by simpa using h⟩
    · rintro ⟨pre, post, h⟩
      exact ⟨post, by
        have := h.symm
        cases pre <;> simp_all⟩
  | cons b bs ih =>
    simp only [containsList, Bool.or_eq_true, startsWithList_iff, ih]
    constructor
    · rintro (⟨rest, h⟩ | ⟨pre, post, h⟩)
      · exact ⟨[], rest, by simpa using h⟩
      · exact ⟨b :: pre, post, by simp [h]⟩
    · rintro ⟨pre, post, h⟩
      cases pre with
      | nil => exact Or.inl ⟨post, by simpa using h⟩
      | cons p ps =>
        simp only [List.cons_append, List.cons.injEq] at h
        exact Or.inr ⟨ps, post, h.2⟩

/-! ## Record model (`src/storage/types.ts`)

`Folder.order` is optional: the interface omits it but the runtime objects
carry it (`addFolder`, `updateFolderOrder`).  `parentId` is `Option String`
(`none` models JSON `null`). -/

structure Folder where
  id : String
  name : String
  parentId : Option String
  type : String
  order : Option Nat
  lastModified : Nat
deriving DecidableEq, Repr

structure Snippet where
  id : String
  name : String
  folderId : String
  code : String
  language : String
  notes : String
  tags : List String
  lastModified : Nat
deriving DecidableEq, Repr

/-! ## Insertion-ordered map (JavaScript `Map` keyed by record id) -/

/-- Association list standing for a JavaScript `Map` with string keys. -/
abbrev JMap (α : Type) := List (String × α)

/-- `Map.get`. -/
def jmGet (m : JMap α) (k : String) : Option α :=
  (m.find? (fun p => p.1 = k)).map (·.2)

/-- `Map.set`: update in place if the key exists (insertion order kept),
otherwise append. -/
def jmSet (m : JMap α) (k : String) (v : α) : JMap α :=
  if m.any (fun p => p.1 = k) then
    m.map (fun p => if p.1 = k then (k, v) else p)
  else
    m ++ [(k, v)]

/-- `Map.values()` in insertion order. -/
def jmValues (m : JMap α) : List α := m.map (·.2)

/-- `Map.has`. -/
def jmHas (m : JMap α) (k : String) : Bool := m.any (fun p => p.1 = k)

/-! ## Merge Engine (`src/extension.ts` lines 1030-1083)

`mergeFolders` and `mergeSnippets` are textually identical Map-based
last-write-wins merges; `mergeRecords` captures the shared algorithm, the
two named functions instantiate it at the two record types exactly as the
source has them. -/

/-- `{...r, lastModified: r.lastModified || Date.now()}`. -/
def fillTs (getLM : α → Nat) (setLM : α → Nat → α) (t : Nat) (r : α) : α :=
  if getLM r = 0 then setLM r t else r

/-- One iteration of the first `forEach`: `map.set(r.id, {...r, lastModified: r.lastModified || Date.now()})`. -/
def mergeSeedStep (getId : α → String) (getLM : α → Nat) (setLM : α → Nat → α)
    (t : Nat) (m : JMap α) (r : α) : JMap α :=
  jmSet m (getId r) (fillTs getLM setLM t r)

/-- One iteration of the second `forEach`: insert the incoming record when
its id is absent, or when its `lastModified` is strictly greater than the
existing one. -/
def mergeStep (getId : α → String) (getLM : α → Nat) (setLM : α → Nat → α)
    (t : Nat) (m : JMap α) (r : α) : JMap α :=
  let newR := fillTs getLM setLM t r
  match jmGet m (getId r) with
  | none => jmSet m (getId r) newR
  | some ex => if getLM newR > getLM ex then jmSet m (getId r) newR else m

/-- The body shared by `mergeFolders` and `mergeSnippets`: seed a Map with
`existing` (filling missing timestamps), then for each incoming record
insert it when its id is absent or its `lastModified` is strictly greater;
return `Array.from(map.values())`. -/
def mergeRecords (getId : α → String) (getLM : α → Nat) (setLM : α → Nat → α)
    (t : Nat) (existing incoming : List α) : List α :=
  jmValues (incoming.foldl (mergeStep getId getLM setLM t)
    (existing.foldl (mergeSeedStep getId getLM setLM t) []))

/-- `mergeFolders(existing, newFolders)` at merge time `t`. -/
def mergeFolders (t : Nat) (existing newFolders : List Folder) : List Folder :=
  mergeRecords Folder.id Folder.lastModified
    (fun f n => { f with lastModified := n }) t existing newFolders

/-- `mergeSnippets(existing, newSnippets)` at merge time `t`. -/
def mergeSnippets (t : Nat) (existing newSnippets : List Snippet) : List Snippet :=
  mergeRecords Snippet.id Snippet.lastModified
    (fun s n => { s with lastModified := n }) t existing newSnippets

/-! ### Map lemmas -/


theorem find?_key_update_self (l : JMap α) (k : String) (v : α) :
    (l.map (fun p => if p.1 = k then (k, v) else p)).find? (fun p => p.1 = k)
      = if l.any (fun p => p.1 = k) then some (k, v) else none := by
  induction l with
  | nil => rfl
  | cons q qs ih =>
    by_cases hq : q.1 = k
    · simp [List.find?, hq]
    · simp only [List.map_cons, if_neg hq, List.any_cons]
      rw [List.find?_cons_of_neg _ (by simpa using hq), ih]
      simp only [decide_eq_false hq, Bool.false_or]

theorem find?_key_update_other (l : JMap α) (k k' : String) (v : α) (h : k ≠ k') :
    (l.map (fun p => if p.1 = k then (k, v) else p)).find? (fun p => p.1 = k')
      = l.find? (fun p => p.1 = k') := by
  induction l with
  | nil => rfl
  | cons q qs ih =>
    by_cases hq : q.1 = k
    · simp only [List.map_cons, if_pos hq]
      rw [List.find?_cons_of_neg _ (by simpa using h),
        List.find?_cons_of_neg _ (by simp [hq]; exact h)]
      exact ih
    · simp only [List.map_cons, if_neg hq]
      by_cases hq' : q.1 = k'
      · rw [List.find?_cons_of_pos _ (by simpa using hq'),
          List.find?_cons_of_pos _ (by simpa using hq')]
      · rw [List.find?_cons_of_neg _ (by simpa using hq'),
          List.find?_cons_of_neg _ (by simpa using hq')]
        exact ih

theorem any_key_iff_find? (l : JMap α) (k : String) :
    l.any (fun p => p.1 = k) = (l.find? (fun p => p.1 = k)).isSome := by
  induction l with
  | nil => rfl
  | cons q qs ih =>
    by_cases hq : q.1 = k
    · simp [List.find?, hq]
    · simp only [List.any_cons, Bool.or_eq_true, decide_eq_true_eq]
      rw [List.find?_cons_of_neg _ (by simpa using hq)]
      simp [hq, ih]

theorem jmGet_set_self (m : JMap α) (k : String) (v : α) :
    jmGet (jmSet m k v) k = some v := by
  simp only [jmSet, jmGet]
  split
  · rename_i h
    rw [find?_key_update_self, if_pos h]
    rfl
  · rename_i h
    rw [List.find?_append]
    have hnone : m.find? (fun p => p.1 = k) = none := by
      cases hf : m.find? (fun p => p.1 = k) with
      | none => rfl
      | some p =>
        rw [any_key_iff_find?, hf] at h
        simp at h
    simp [hnone, List.find?]

theorem jmGet_set_other (m : JMap α) (k k' : String) (v : α) (h : k ≠ k') :
    jmGet (jmSet m k v) k' = jmGet m k' := by
  simp only [jmSet, jmGet]
  split
  · rw [find?_key_update_other _ _ _ _ h]
  · rw [List.find?_append]
    have : List.find? (fun p => p.1 = k') [(k, v)] = none := by
      simp [List.find?, h]
    rw [this]
    cases m.find? (fun p => p.1 = k') <;> rfl

theorem jmHas_set (m : JMap α) (k k' : String) (v : α) :
    jmHas (jmSet m k v) k' = (jmHas m k' || k = k') := by
  simp only [jmHas, jmSet]
  split
  · rename_i h
    rw [List.any_map]
    have hpt : ∀ p : String × α,
        (fun p => decide (p.1 = k')) ((fun p => if p.1 = k then (k, v) else p) p)
          = decide (p.1 = k') := by
      intro p
      by_cases hp : p.1 = k
      · simp [hp]
      · simp [hp]
    rw [show ((fun p => decide (p.1 = k')) ∘ fun p => if p.1 = k then (k, v) else p)
        = fun p : String × α => decide (p.1 = k') from funext hpt]
    by_cases hk : k = k'
    · subst hk
      simp [h]
    · simp [hk]
  · rw [List.any_append]
    simp [List.any_cons]

/-! ### Merge lemmas -/

theorem jmSet_of_not_has (m : JMap α) (k : String) (v : α)
    (h : jmHas m k = false) : jmSet m k v = m ++ [(k, v)] := by
  simp only [jmHas] at h
  simp [jmSet, h]

theorem jmHas_append_single (m : JMap α) (k k' : String) (v : α) :
    jmHas (m ++ [(k, v)]) k' = (jmHas m k' || k = k') := by
  simp [jmHas, List.any_append]

theorem jmSet_keys_nodup (m : JMap α) (k : String) (v : α)
    (h : (m.map (·.1)).Nodup) : ((jmSet m k v).map (·.1)).Nodup := by
  simp only [jmSet]
  split
  · have : (m.map (fun p => if p.1 = k then (k, v) else p)).map (·.1) = m.map (·.1) := by
      rw [List.map_map]
      apply List.map_congr_left
      intro p _
      by_cases hp : p.1 = k
      · simp [hp]
      · simp [hp]
    rw [this]
    exact h
  · rename_i hany
    rw [List.map_append]
    simp only [List.map_cons, List.map_nil]
    rw [List.nodup_append]
    refine ⟨h, List.nodup_singleton k, ?_⟩
    rw [List.disjoint_singleton]
    intro hk
    simp only [List.mem_map] at hk
    obtain ⟨p, hp, hpk⟩ := hk
    have hT : m.any (fun p => p.1 = k) = true := by
      simp only [List.any_eq_true, decide_eq_true_eq]
      exact ⟨p, hp, hpk⟩
    exact absurd hT hany

theorem jmSet_wf (getId : α → String) (m : JMap α) (k : String) (v : α)
    (hm : ∀ p ∈ m, getId p.2 = p.1) (hv : getId v = k) :
    ∀ p ∈ jmSet m k v, getId p.2 = p.1 := by
  intro p hp
  simp only [jmSet] at hp
  split at hp
  · simp only [List.mem_map] at hp
    obtain ⟨q, hq, hqp⟩ := hp
    by_cases hqk : q.1 = k
    · rw [if_pos hqk] at hqp
      rw [← hqp]
      exact hv
    · rw [if_neg hqk] at hqp
      exact hqp ▸ hm q hq
  · rw [List.mem_append] at hp
    rcases hp with hp | hp
    · exact hm p hp
    · simp only [List.mem_singleton] at hp
      subst hp
      exact hv

theorem jmGet_map_pairs (getId : α → String) (l : List α) (k : String) :
    jmGet (l.map (fun r => (getId r, r))) k = l.find? (fun r => getId r = k) := by
  induction l with
  | nil => rfl
  | cons r rs ih =>
    by_cases hr : getId r = k
    · simp [jmGet, List.find?, hr]
    · simp only [List.map_cons, jmGet]
      rw [List.find?_cons_of_neg _ (by simpa using hr),
        List.find?_cons_of_neg _ (by simpa using hr)]
      exact ih

theorem foldl_seed_eq (getId : α → String) (getLM : α → Nat) (setLM : α → Nat → α)
    (t : Nat) (l : List α)
    (hnd : (l.map getId).Nodup)
    (hlm : ∀ r ∈ l, getLM r ≠ 0) :
    ∀ m : JMap α, (∀ r ∈ l, jmHas m (getId r) = false) →
      l.foldl (mergeSeedStep getId getLM setLM t) m = m ++ l.map (fun r => (getId r, r)) := by
  induction l with
  | nil => intro m _; simp
  | cons r rs ih =>
    intro m hdisj
    rw [List.map_cons, List.nodup_cons] at hnd
    have hr0 : getLM r ≠ 0 := hlm r (List.mem_cons_self r rs)
    have hfill : fillTs getLM setLM t r = r := by
      rw [fillTs, if_neg hr0]
    have hstep : mergeSeedStep getId getLM setLM t m r = m ++ [(getId r, r)] := by
      rw [mergeSeedStep, hfill,
        jmSet_of_not_has _ _ _ (hdisj r (List.mem_cons_self r rs))]
    rw [List.foldl_cons, hstep,
      ih hnd.2 (fun r' hr' => hlm r' (List.mem_cons_of_mem r hr'))
        (m ++ [(getId r, r)])
        (fun r' hr' => by
          rw [jmHas_append_single]
          have h1 : jmHas m (getId r') = false := hdisj r' (List.mem_cons_of_mem r hr')
          have h2 : getId r ≠ getId r' := fun he => hnd.1 (he ▸ List.mem_map_of_mem getId hr')
          simp [h1, h2])]
    simp

theorem mergeStep_get_other (getId : α → String) (getLM : α → Nat)
    (setLM : α → Nat → α) (t : Nat) (m : JMap α) (r : α) (k : String)
    (h : getId r ≠ k) :
    jmGet (mergeStep getId getLM setLM t m r) k = jmGet m k := by
  rw [mergeStep]
  cases hg : jmGet m (getId r) with
  | none => simp only [hg]; exact jmGet_set_other _ _ _ _ h
  | some ex =>
    simp only [hg]
    split
    · exact jmGet_set_other _ _ _ _ h
    · rfl

theorem mergeStep_get_self (getId : α → String) (getLM : α → Nat)
    (setLM : α → Nat → α) (t : Nat) (m : JMap α) (r : α) :
    jmGet (mergeStep getId getLM setLM t m r) (getId r)
      = match jmGet m (getId r) with
        | none => some (fillTs getLM setLM t r)
        | some ex => if getLM (fillTs getLM setLM t r) > getLM ex
            then some (fillTs getLM setLM t r) else some ex := by
  rw [mergeStep]
  cases hg : jmGet m (getId r) with
  | none => simp only [hg]; exact jmGet_set_self _ _ _
  | some ex =>
    simp only [hg]
    split
    · exact jmGet_set_self _ _ _
    · exact hg

theorem foldl_mergeStep_get_not_mem (getId : α → String) (getLM : α → Nat)
    (setLM : α → Nat → α) (t : Nat) (l : List α) (k : String)
    (h : ∀ r ∈ l, getId r ≠ k) :
    ∀ m : JMap α, jmGet (l.foldl (mergeStep getId getLM setLM t) m) k = jmGet m k := by
  induction l with
  | nil => intro m; rfl
  | cons r rs ih =>
    intro m
    rw [List.foldl_cons,
      ih (fun r' hr' => h r' (List.mem_cons_of_mem r hr')),
      mergeStep_get_other _ _ _ _ _ _ _ (h r (List.mem_cons_self r rs))]

theorem foldl_mergeStep_get_mem (getId : α → String) (getLM : α → Nat)
    (setLM : α → Nat → α) (t : Nat) (l : List α) (k : String) (r : α)
    (hnd : (l.map getId).Nodup)
    (hfind : l.find? (fun x => getId x = k) = some r) :
    ∀ m : JMap α, jmGet (l.foldl (mergeStep getId getLM setLM t) m) k
      = match jmGet m k with
        | none => some (fillTs getLM setLM t r)
        | some ex => if getLM (fillTs getLM setLM t r) > getLM ex
            then some (fillTs getLM setLM t r) else some ex := by
  induction l with
  | nil => intro m; cases hfind
  | cons h0 rs ih =>
    intro m
    rw [List.map_cons, List.nodup_cons] at hnd
    by_cases hk : getId h0 = k
    · rw [List.find?_cons_of_pos _ (by simpa using hk)] at hfind
      injection hfind with hfind
      subst hfind
      have htail : ∀ r' ∈ rs, getId r' ≠ k := by
        intro r' hr' he
        exact hnd.1 (hk ▸ he ▸ List.mem_map_of_mem getId hr')
      rw [List.foldl_cons, foldl_mergeStep_get_not_mem _ _ _ _ _ _ htail,
        ← hk, mergeStep_get_self]
    · rw [List.find?_cons_of_neg _ (by simpa using hk)] at hfind
      rw [List.foldl_cons, ih hnd.2 hfind,
        mergeStep_get_other _ _ _ _ _ _ _ hk]

theorem fillTs_id_eq (getId : α → String) (getLM : α → Nat) (setLM : α → Nat → α)
    (t : Nat) (r : α) (hSet : ∀ x n, getId (setLM x n) = getId x) :
    getId (fillTs getLM setLM t r) = getId r := by
  rw [fillTs]
  split
  · exact hSet r t
  · rfl

theorem mergeSeedStep_wf (getId : α → String) (getLM : α → Nat) (setLM : α → Nat → α)
    (t : Nat) (m : JMap α) (r : α)
    (hSet : ∀ x n, getId (setLM x n) = getId x)
    (hm : ∀ p ∈ m, getId p.2 = p.1) :
    ∀ p ∈ mergeSeedStep getId getLM setLM t m r, getId p.2 = p.1 :=
  jmSet_wf getId m _ _ hm (fillTs_id_eq getId getLM setLM t r hSet)

theorem mergeStep_wf (getId : α → String) (getLM : α → Nat) (setLM : α → Nat → α)
    (t : Nat) (m : JMap α) (r : α)
    (hSet : ∀ x n, getId (setLM x n) = getId x)
    (hm : ∀ p ∈ m, getId p.2 = p.1) :
    ∀ p ∈ mergeStep getId getLM setLM t m r, getId p.2 = p.1 := by
  rw [mergeStep]
  cases hg : jmGet m (getId r) with
  | none =>
    exact jmSet_wf getId m _ _ hm (fillTs_id_eq getId getLM setLM t r hSet)
  | some ex =>
    simp only
    split
    · exact jmSet_wf getId m _ _ hm (fillTs_id_eq getId getLM setLM t r hSet)
    · exact hm

theorem foldl_wf (getId : α → String) (step : JMap α → α → JMap α)
    (hstep : ∀ m r, (∀ p ∈ m, getId p.2 = p.1) → ∀ p ∈ step m r, getId p.2 = p.1)
    (l : List α) :
    ∀ m : JMap α, (∀ p ∈ m, getId p.2 = p.1) →
      ∀ p ∈ l.foldl step m, getId p.2 = p.1 := by
  induction l with
  | nil => intro m hm; exact hm
  | cons r rs ih =>
    intro m hm
    rw [List.foldl_cons]
    exact ih (step m r) (hstep m r hm)

theorem mergeSeedStep_keys_nodup (getId : α → String) (getLM : α → Nat)
    (setLM : α → Nat → α) (t : Nat) (m : JMap α) (r : α)
    (h : (m.map (·.1)).Nodup) :
    ((mergeSeedStep getId getLM setLM t m r).map (·.1)).Nodup :=
  jmSet_keys_nodup m _ _ h

theorem mergeStep_keys_nodup (getId : α → String) (getLM : α → Nat)
    (setLM : α → Nat → α) (t : Nat) (m : JMap α) (r : α)
    (h : (m.map (·.1)).Nodup) :
    ((mergeStep getId getLM setLM t m r).map (·.1)).Nodup := by
  rw [mergeStep]
  cases hg : jmGet m (getId r) with
  | none => exact jmSet_keys_nodup m _ _ h
  | some ex =>
    simp only
    split
    · exact jmSet_keys_nodup m _ _ h
    · exact h

theorem foldl_keys_nodup (step : JMap α → α → JMap α)
    (hstep : ∀ m r, (m.map (·.1)).Nodup → ((step m r).map (·.1)).Nodup)
    (l : List α) :
    ∀ m : JMap α, (m.map (·.1)).Nodup → ((l.foldl step m).map (·.1)).Nodup := by
  induction l with
  | nil => intro m hm; exact hm
  | cons r rs ih =>
    intro m hm
    rw [List.foldl_cons]
    exact ih (step m r) (hstep m r hm)

theorem values_find (getId : α → String) (m : JMap α)
    (hwf : ∀ p ∈ m, getId p.2 = p.1) (hnd : (m.map (·.1)).Nodup) (k : String) :
    (jmValues m).find? (fun v => getId v = k) = jmGet m k := by
  induction m with
  | nil => rfl
  | cons q qs ih =>
    rw [List.map_cons, List.nodup_cons] at hnd
    have hq : getId q.2 = q.1 := hwf q (List.mem_cons_self q qs)
    by_cases hk : q.1 = k
    · simp only [jmValues, List.map_cons, jmGet]
      rw [List.find?_cons_of_pos _ (by simp [hq, hk]),
        List.find?_cons_of_pos _ (by simpa using hk)]
      rfl
    · simp only [jmValues, List.map_cons, jmGet]
      rw [List.find?_cons_of_neg _ (by simp [hq, hk]),
        List.find?_cons_of_neg _ (by simpa using hk)]
      exact ih (fun p hp => hwf p (List.mem_cons_of_mem q hp)) hnd.2

/-- The seed Map of either merge is exactly `existing` as pairs, when ids
are unique and timestamps present. -/
theorem seed_map_eq (getId : α → String) (getLM : α → Nat) (setLM : α → Nat → α)
    (t : Nat) (existing : List α)
    (hnd : (existing.map getId).Nodup)
    (hlm : ∀ r ∈ existing, getLM r ≠ 0) :
    existing.foldl (mergeSeedStep getId getLM setLM t) []
      = existing.map (fun r => (getId r, r)) := by
  rw [foldl_seed_eq getId getLM setLM t existing hnd hlm []
    (fun r _ => by rfl)]
  rfl

theorem jmGet_isSome_eq_has (m : JMap α) (k : String) :
    (jmGet m k).isSome = jmHas m k := by
  rw [jmHas, any_key_iff_find?, jmGet]
  cases m.find? (fun p => p.1 = k) <;> rfl

/-- The record a last-write-wins merge should associate to an id, given
the local and incoming records with that id. -/
def lwwExpected (getLM : α → Nat) : Option α → Option α → Option α
  | none, none => none
  | some l, none => some l
  | none, some i => some i
  | some l, some i => if getLM i > getLM l then some i else some l

/-- Full characterization of the Map-based merge: the record the result
associates to an id is the local one unless the incoming one's
`lastModified` is strictly greater, and incoming records with fresh ids
are inserted. -/
theorem mergeRecords_find? (getId : α → String) (getLM : α → Nat) (setLM : α → Nat → α)
    (hSet : ∀ x n, getId (setLM x n) = getId x)
    (t : Nat) (existing incoming : List α) (k : String)
    (hnd1 : (existing.map getId).Nodup) (hnd2 : (incoming.map getId).Nodup)
    (hlm1 : ∀ r ∈ existing, getLM r ≠ 0) (hlm2 : ∀ r ∈ incoming, getLM r ≠ 0) :
    (mergeRecords getId getLM setLM t existing incoming).find? (fun r => getId r = k)
      = lwwExpected getLM (existing.find? (fun r => getId r = k))
          (incoming.find? (fun r => getId r = k)) := by
  rw [mergeRecords]
  set m1 := existing.foldl (mergeSeedStep getId getLM setLM t) [] with hm1
  set m2 := incoming.foldl (mergeStep getId getLM setLM t) m1 with hm2
  have hwf1 : ∀ p ∈ m1, getId p.2 = p.1 :=
    foldl_wf getId _ (fun m r hm => mergeSeedStep_wf getId getLM setLM t m r hSet hm)
      existing [] (fun p hp => absurd hp (List.not_mem_nil p))
  have hwf2 : ∀ p ∈ m2, getId p.2 = p.1 :=
    foldl_wf getId _ (fun m r hm => mergeStep_wf getId getLM setLM t m r hSet hm)
      incoming m1 hwf1
  have hknd1 : (m1.map (·.1)).Nodup :=
    foldl_keys_nodup _ (fun m r hm => mergeSeedStep_keys_nodup getId getLM setLM t m r hm)
      existing [] (by simp)
  have hknd2 : (m2.map (·.1)).Nodup :=
    foldl_keys_nodup _ (fun m r hm => mergeStep_keys_nodup getId getLM setLM t m r hm)
      incoming m1 hknd1
  rw [values_find getId m2 hwf2 hknd2 k]
  have hget1 : jmGet m1 k = existing.find? (fun r => getId r = k) := by
    rw [hm1, seed_map_eq getId getLM setLM t existing hnd1 hlm1, jmGet_map_pairs]
  cases hfi : incoming.find? (fun r => getId r = k) with
  | none =>
    have hni : ∀ r ∈ incoming, getId r ≠ k := by
      intro r hr
      have := List.find?_eq_none.mp hfi r hr
      simpa using this
    rw [hm2, foldl_mergeStep_get_not_mem _ _ _ _ _ _ hni m1, hget1]
    cases existing.find? (fun r => getId r = k) <;> rfl
  | some i =>
    have hi_mem : i ∈ incoming := List.mem_of_find?_eq_some hfi
    have hfill : fillTs getLM setLM t i = i := by
      rw [fillTs, if_neg (hlm2 i hi_mem)]
    rw [hm2, foldl_mergeStep_get_mem getId getLM setLM t incoming k i hnd2 hfi m1,
      hget1, hfill]
    cases existing.find? (fun r => getId r = k) <;> rfl

/-! Key-presence lemmas for the union property. -/

theorem mergeStep_has (getId : α → String) (getLM : α → Nat) (setLM : α → Nat → α)
    (t : Nat) (m : JMap α) (r : α) (k : String) (h : jmHas m k = true) :
    jmHas (mergeStep getId getLM setLM t m r) k = true := by
  rw [mergeStep]
  cases hg : jmGet m (getId r) with
  | none => rw [jmHas_set, h, Bool.true_or]
  | some ex =>
    simp only
    split
    · rw [jmHas_set, h, Bool.true_or]
    · exact h

theorem mergeSeedStep_has (getId : α → String) (getLM : α → Nat) (setLM : α → Nat → α)
    (t : Nat) (m : JMap α) (r : α) (k : String) (h : jmHas m k = true) :
    jmHas (mergeSeedStep getId getLM setLM t m r) k = true := by
  rw [mergeSeedStep, jmHas_set, h, Bool.true_or]

theorem foldl_has_mono (step : JMap α → α → JMap α)
    (hstep : ∀ m r k, jmHas m k = true → jmHas (step m r) k = true)
    (l : List α) :
    ∀ (m : JMap α) (k : String), jmHas m k = true → jmHas (l.foldl step m) k = true := by
  induction l with
  | nil => intro m k h; exact h
  | cons r rs ih =>
    intro m k h
    exact ih (step m r) k (hstep m r k h)

theorem mergeStep_has_self (getId : α → String) (getLM : α → Nat) (setLM : α → Nat → α)
    (t : Nat) (m : JMap α) (r : α) :
    jmHas (mergeStep getId getLM setLM t m r) (getId r) = true := by
  rw [mergeStep]
  cases hg : jmGet m (getId r) with
  | none => rw [jmHas_set]; simp
  | some ex =>
    simp only
    split
    · rw [jmHas_set]; simp
    · rw [← jmGet_isSome_eq_has, hg]
      rfl

theorem mergeSeedStep_has_self (getId : α → String) (getLM : α → Nat) (setLM : α → Nat → α)
    (t : Nat) (m : JMap α) (r : α) :
    jmHas (mergeSeedStep getId getLM setLM t m r) (getId r) = true := by
  rw [mergeSeedStep, jmHas_set]
  simp

theorem foldl_has_of_mem (getId : α → String) (step : JMap α → α → JMap α)
    (hmono : ∀ m r k, jmHas m k = true → jmHas (step m r) k = true)
    (hself : ∀ m r, jmHas (step m r) (getId r) = true)
    (l : List α) :
    ∀ (m : JMap α) (r : α), r ∈ l → jmHas (l.foldl step m) (getId r) = true := by
  induction l with
  | nil => intro m r hr; exact absurd hr (List.not_mem_nil r)
  | cons x xs ih =>
    intro m r hr
    rw [List.foldl_cons]
    rcases List.mem_cons.mp hr with hr | hr
    · subst hr
      exact foldl_has_mono step hmono xs (step m r) (getId r) (hself m r)
    · exact ih (step m x) r hr

/-- Union: every id present in either input collection is present in the
merge output. -/
theorem mergeRecords_mem (getId : α → String) (getLM : α → Nat) (setLM : α → Nat → α)
    (hSet : ∀ x n, getId (setLM x n) = getId x)
    (t : Nat) (existing incoming : List α) (k : String)
    (h : (∃ r ∈ existing, getId r = k) ∨ (∃ r ∈ incoming, getId r = k)) :
    ∃ r ∈ mergeRecords getId getLM setLM t existing incoming, getId r = k := by
  rw [mergeRecords]
  set m1 := existing.foldl (mergeSeedStep getId getLM setLM t) [] with hm1
  set m2 := incoming.foldl (mergeStep getId getLM setLM t) m1 with hm2
  have hwf1 : ∀ p ∈ m1, getId p.2 = p.1 :=
    foldl_wf getId _ (fun m r hm => mergeSeedStep_wf getId getLM setLM t m r hSet hm)
      existing [] (fun p hp => absurd hp (List.not_mem_nil p))
  have hwf2 : ∀ p ∈ m2, getId p.2 = p.1 :=
    foldl_wf getId _ (fun m r hm => mergeStep_wf getId getLM setLM t m r hSet hm)
      incoming m1 hwf1
  have hhas : jmHas m2 k = true := by
    rcases h with ⟨r, hr, hk⟩ | ⟨r, hr, hk⟩
    · subst hk
      rw [hm2]
      exact foldl_has_mono _ (fun m x k h => mergeStep_has getId getLM setLM t m x k h)
        incoming m1 (getId r)
        (foldl_has_of_mem getId _
          (fun m x k h => mergeSeedStep_has getId getLM setLM t m x k h)
          (fun m x => mergeSeedStep_has_self getId getLM setLM t m x)
          existing [] r hr)
    · subst hk
      rw [hm2]
      exact foldl_has_of_mem getId _
        (fun m x k h => mergeStep_has getId getLM setLM t m x k h)
        (fun m x => mergeStep_has_self getId getLM setLM t m x)
        incoming m1 r hr
  rw [jmHas] at hhas
  simp only [List.any_eq_true, decide_eq_true_eq] at hhas
  obtain ⟨p, hp, hpk⟩ := hhas
  exact ⟨p.2, List.mem_map_of_mem _ hp, hpk ▸ hwf2 p hp⟩

/-! Idempotence. -/

theorem find?_self_of_nodup (getId : α → String) (l : List α) (r : α)
    (hnd : (l.map getId).Nodup) (hr : r ∈ l) :
    l.find? (fun x => getId x = getId r) = some r := by
  induction l with
  | nil => exact absurd hr (List.not_mem_nil r)
  | cons h t ih =>
    rw [List.map_cons, List.nodup_cons] at hnd
    rcases List.mem_cons.mp hr with hr | hr
    · subst hr
      exact List.find?_cons_of_pos _ (by simp)
    · have hne : getId h ≠ getId r := by
        intro he
        exact hnd.1 (he ▸ List.mem_map_of_mem getId hr)
      rw [List.find?_cons_of_neg _ (by simpa using hne)]
      exact ih hnd.2 hr

theorem foldl_fixed (f : β → α → β) (l : List α) (m : β)
    (h : ∀ r ∈ l, f m r = m) : l.foldl f m = m := by
  induction l with
  | nil => rfl
  | cons r rs ih =>
    rw [List.foldl_cons, h r (List.mem_cons_self r rs)]
    exact ih (fun r' hr' => h r' (List.mem_cons_of_mem r hr'))

/-- Merging a collection with itself gives it back unchanged (unique ids,
timestamps present). -/
theorem mergeRecords_self (getId : α → String) (getLM : α → Nat) (setLM : α → Nat → α)
    (t : Nat) (X : List α)
    (hnd : (X.map getId).Nodup) (hlm : ∀ r ∈ X, getLM r ≠ 0) :
    mergeRecords getId getLM setLM t X X = X := by
  rw [mergeRecords, seed_map_eq getId getLM setLM t X hnd hlm]
  rw [foldl_fixed _ X _ (fun r hr => by
    have hget : jmGet (X.map fun x => (getId x, x)) (getId r) = some r := by
      rw [jmGet_map_pairs]
      exact find?_self_of_nodup getId X r hnd hr
    have hfill : fillTs getLM setLM t r = r := by
      rw [fillTs, if_neg (hlm r hr)]
    rw [mergeStep]
    simp only [hget, hfill]
    rw [if_neg (by simp)])]
  rw [jmValues, List.map_map]
  have hcomp : ((fun p : String × α => p.2) ∘ fun x => (getId x, x)) = id := rfl
  rw [hcomp, List.map_id]

/-! ## Sample records used by witnesses -/

def sampleSnippetLocal : Snippet :=
  ⟨"s1", "local", "f1", "console.log(1)", "javascript", "", [], 100⟩

def sampleSnippetInc50 : Snippet :=
  ⟨"s1", "older incoming", "f1", "console.log(2)", "javascript", "", [], 50⟩

def sampleSnippetInc150 : Snippet :=
  ⟨"s1", "newer incoming", "f1", "console.log(3)", "javascript", "", [], 150⟩

def sampleFolderA : Folder := ⟨"a", "A", none, "primary", some 0, 10⟩

def sampleFolderB : Folder := ⟨"b", "B", some "a", "primary", some 1, 20⟩

/-- C1: for every local and incoming collection (well-formed: unique ids,
timestamps present), both `mergeFolders` and `mergeSnippets` keep the local
record for an id when the incoming record's `lastModified` is not strictly
greater (in particular on equal timestamps), insert incoming records whose
id is absent locally, and replace the local record exactly when the
incoming `lastModified` is strictly greater. -/
theorem merge_lww_per_id :
    (∀ (t : Nat) (loc inc : List Folder) (fid : String),
      (loc.map Folder.id).Nodup → (inc.map Folder.id).Nodup →
      (∀ f ∈ loc, f.lastModified ≠ 0) → (∀ f ∈ inc, f.lastModified ≠ 0) →
      (mergeFolders t loc inc).find? (fun f => f.id = fid)
        = lwwExpected Folder.lastModified (loc.find? (fun f => f.id = fid))
            (inc.find? (fun f => f.id = fid))) ∧
    (∀ (t : Nat) (loc inc : List Snippet) (sid : String),
      (loc.map Snippet.id).Nodup → (inc.map Snippet.id).Nodup →
      (∀ s ∈ loc, s.lastModified ≠ 0) → (∀ s ∈ inc, s.lastModified ≠ 0) →
      (mergeSnippets t loc inc).find? (fun s => s.id = sid)
        = lwwExpected Snippet.lastModified (loc.find? (fun s => s.id = sid))
            (inc.find? (fun s => s.id = sid))) := by
  constructor
  · intro t loc inc fid h1 h2 h3 h4
    exact mergeRecords_find? Folder.id Folder.lastModified
      (fun f n => { f with lastModified := n })
      (fun x n => rfl) t loc inc fid h1 h2 h3 h4
  · intro t loc inc sid h1 h2 h3 h4
    exact mergeRecords_find? Snippet.id Snippet.lastModified
      (fun s n => { s with lastModified := n })
      (fun x n => rfl) t loc inc sid h1 h2 h3 h4

/-- C1 witness: the spec's scenario. Local `{id:"s1", lastModified:100}`
against incoming `lastModified 50` keeps local; against `150` adopts the
incoming record. -/
theorem merge_lww_per_id_witness :
    (mergeSnippets 999 [sampleSnippetLocal] [sampleSnippetInc50]).find?
        (fun s => s.id = "s1") = some sampleSnippetLocal ∧
    (mergeSnippets 999 [sampleSnippetLocal] [sampleSnippetInc150]).find?
        (fun s => s.id = "s1") = some sampleSnippetInc150 := by
  have h1 := merge_lww_per_id.2 999 [sampleSnippetLocal] [sampleSnippetInc50] "s1"
    (by decide) (by decide) (by decide) (by decide)
  have h2 := merge_lww_per_id.2 999 [sampleSnippetLocal] [sampleSnippetInc150] "s1"
    (by decide) (by decide) (by decide) (by decide)
  exact ⟨by rw [h1]; decide, by rw [h2]; decide⟩

/-- C2: merge never removes records — every id present in either input
collection is present in the output of `mergeFolders` / `mergeSnippets`. -/
theorem merge_union_never_deletes :
    (∀ (t : Nat) (loc inc : List Folder) (fid : String),
      ((∃ f ∈ loc, f.id = fid) ∨ (∃ f ∈ inc, f.id = fid)) →
      ∃ f ∈ mergeFolders t loc inc, f.id = fid) ∧
    (∀ (t : Nat) (loc inc : List Snippet) (sid : String),
      ((∃ s ∈ loc, s.id = sid) ∨ (∃ s ∈ inc, s.id = sid)) →
      ∃ s ∈ mergeSnippets t loc inc, s.id = sid) := by
  constructor
  · intro t loc inc fid h
    exact mergeRecords_mem Folder.id Folder.lastModified
      (fun f n => { f with lastModified := n })
      (fun x n => rfl) t loc inc fid h
  · intro t loc inc sid h
    exact mergeRecords_mem Snippet.id Snippet.lastModified
      (fun s n => { s with lastModified := n })
      (fun x n => rfl) t loc inc sid h

/-- C2 witness: a folder only present in the incoming side, and a snippet
only present in the local side, both survive the merge. -/
theorem merge_union_never_deletes_witness :
    (((∃ f ∈ ([] : List Folder), f.id = "a") ∨ ∃ f ∈ [sampleFolderA], f.id = "a") ∧
      ∃ f ∈ mergeFolders 5 [] [sampleFolderA], f.id = "a") ∧
    (((∃ s ∈ [sampleSnippetLocal], s.id = "s1") ∨
        ∃ s ∈ ([] : List Snippet), s.id = "s1") ∧
      ∃ s ∈ mergeSnippets 5 [sampleSnippetLocal] [], s.id = "s1") := by
  refine ⟨⟨by decide, ?_⟩, ⟨by decide, ?_⟩⟩
  · exact merge_union_never_deletes.1 5 [] [sampleFolderA] "a" (by decide)
  · exact merge_union_never_deletes.2 5 [sampleSnippetLocal] [] "s1" (by decide)

/-- C3: merge is idempotent — `merge(X, X) = X` for both record kinds, for
well-formed collections (unique ids, timestamps present). -/
theorem merge_idempotent :
    (∀ (t : Nat) (X : List Folder),
      (X.map Folder.id).Nodup → (∀ f ∈ X, f.lastModified ≠ 0) →
      mergeFolders t X X = X) ∧
    (∀ (t : Nat) (X : List Snippet),
      (X.map Snippet.id).Nodup → (∀ s ∈ X, s.lastModified ≠ 0) →
      mergeSnippets t X X = X) := by
  constructor
  · intro t X h1 h2
    exact mergeRecords_self Folder.id Folder.lastModified
      (fun f n => { f with lastModified := n }) t X h1 h2
  · intro t X h1 h2
    exact mergeRecords_self Snippet.id Snippet.lastModified
      (fun s n => { s with lastModified := n }) t X h1 h2

/-- C3 witness: a two-folder and a one-snippet collection merged with
themselves come back unchanged. -/
theorem merge_idempotent_witness :
    mergeFolders 7 [sampleFolderA, sampleFolderB] [sampleFolderA, sampleFolderB]
        = [sampleFolderA, sampleFolderB] ∧
    mergeSnippets 7 [sampleSnippetLocal] [sampleSnippetLocal] = [sampleSnippetLocal] := by
  exact ⟨merge_idempotent.1 7 [sampleFolderA, sampleFolderB] (by decide) (by decide),
    merge_idempotent.2 7 [sampleSnippetLocal] (by decide) (by decide)⟩

/-! ## Tree Projection (`src/sidebar/SnippetTreeDataProvider.ts` lines 157-219)

`getChildren(element)` for a folder element returns the folders whose
`parentId` equals the element's id (line 194), then the folder's snippets.
There is no cycle detection anywhere in the provider. -/

/-- Subfolders shown under the folder with id `pid`:
`this.folders.filter(folder => folder.parentId === element.id)`. -/
def childFolders (folders : List Folder) (pid : String) : List Folder :=
  folders.filter (fun f => f.parentId = some pid)

/-- Root folders: `this.folders.filter(folder => folder.parentId === null)`. -/
def rootFolders (folders : List Folder) : List Folder :=
  folders.filter (fun f => f.parentId = none)

/-- `Descendant folders pid f`: folder `f` is reached from the folder with
id `pid` by repeatedly expanding `getChildren`. -/
inductive Descendant (folders : List Folder) : String → Folder → Prop where
  | child : ∀ {pid : String} {f : Folder},
      f ∈ childFolders folders pid → Descendant folders pid f
  | step : ∀ {pid : String} {g f : Folder},
      Descendant folders pid g → f ∈ childFolders folders g.id →
      Descendant folders pid f

/-- A self-parenting folder, which the raw data can contain (no re-parent
operation in `LocalStorage` validates against cycles). -/
def sampleCycFolder : Folder := ⟨"f1", "Loop", some "f1", "primary", none, 1⟩

theorem descendant_rank_lt (folders : List Folder) (rank : String → Nat)
    (hr : ∀ f ∈ folders, (f.parentId.all fun p => decide (rank p < rank f.id)) = true) :
    ∀ {pid : String} {f : Folder}, Descendant folders pid f →
      f ∈ folders ∧ rank pid < rank f.id := by
  intro pid f hd
  induction hd with
  | @child f' hc =>
    have hmem := List.mem_of_mem_filter hc
    have hpar : f'.parentId = some pid := by
      have := List.of_mem_filter hc
      simpa using this
    refine ⟨hmem, ?_⟩
    have := hr f' hmem
    rw [hpar] at this
    simpa using this
  | @step g' f' hd hc ih =>
    have hmem := List.mem_of_mem_filter hc
    have hpar : f'.parentId = some g'.id := by
      have := List.of_mem_filter hc
      simpa using this
    refine ⟨hmem, ?_⟩
    have hlt : rank g'.id < rank f'.id := by
      have := hr f' hmem
      rw [hpar] at this
      simpa using this
    exact lt_trans ih.2 hlt

/-- C5 counterexample: the claim fails on the code. With the pathological
collection `[{id:"f1", parentId:"f1"}]` the projection's transitive
children relation reaches the folder from itself: `getChildren` does not
detect or break cycles, it just filters on `parentId`. -/
theorem tree_projection_cycle_counterexample :
    sampleCycFolder ∈ [sampleCycFolder] ∧
      Descendant [sampleCycFolder] sampleCycFolder.id sampleCycFolder := by
  refine ⟨List.mem_singleton.mpr rfl, Descendant.child ?_⟩
  decide

/-- C5 amended: the projection is cycle-free only on well-formed data.
If the `parentId` graph is acyclic — witnessed by a rank function that
strictly increases from parent to child — then no folder is its own
descendant; with a cyclic `parentId` graph a folder can be its own
descendant (the code performs no cycle detection). -/
theorem tree_projection_acyclic (folders : List Folder) (rank : String → Nat)
    (hr : ∀ f ∈ folders, (f.parentId.all fun p => decide (rank p < rank f.id)) = true) :
    ∀ f ∈ folders, ¬ Descendant folders f.id f := by
  intro f _ hd
  exact lt_irrefl _ (descendant_rank_lt folders rank hr hd).2

/-- C5 witness: on the acyclic two-folder collection A ← B the subfolder B
is not its own descendant. -/
theorem tree_projection_acyclic_witness :
    ¬ Descendant [sampleFolderA, sampleFolderB] sampleFolderB.id sampleFolderB := by
  exact tree_projection_acyclic [sampleFolderA, sampleFolderB]
    (fun s => if s = "a" then 0 else 1) (by decide)
    sampleFolderB (by decide)

/-! ## Search (`src/sidebar/SnippetTreeDataProvider.ts` lines 118-155)

`setSearchQuery` stores `query.toLowerCase()`.  `snippetMatchesSearch`
splits the stored query on single space characters and requires every term
to occur in name, tags, notes or code.  `folderMatchesSearch` tests
whether the folder name contains the WHOLE stored query as one substring —
it does not split into terms.  JavaScript `toLowerCase` is modelled on
ASCII letters, and strings are handled as character lists so the model
stays kernel-executable. -/

/-- ASCII lower-casing of one character (models `toLowerCase`). -/
def lowerChar (c : Char) : Char :=
  if 'A' ≤ c ∧ c ≤ 'Z' then Char.ofNat (c.toNat + 32) else c

/-- `s.toLowerCase()` as a character list. -/
def jsToLower (s : String) : List Char := s.toList.map lowerChar

/-- JavaScript `String.split` semantics: split at every separator, keeping
empty pieces (`"a  b".split(' ')` is `["a","","b"]`, `"".split(' ')` is
`[""]`). -/
def splitChars (p : Char → Bool) : List Char → List (List Char)
  | [] => [[]]
  | c :: cs =>
    if p c then [] :: splitChars p cs
    else
      match splitChars p cs with
      | [] => [[c]]
      | h :: t => (c :: h) :: t

/-- `snippetMatchesSearch(snippet)` with `query` the raw search string:
the provider stores `query.toLowerCase()`, returns true on an empty query,
lower-cases again, splits on `' '`, and requires every term to occur in
the snippet's name, tags, notes or code (notes and code are only consulted
when non-empty, mirroring the `&&` guards). -/
def snippetMatchesSearch (query : String) (s : Snippet) : Bool :=
  let stored := jsToLower query
  if stored = [] then true
  else
    (splitChars (fun c => c = ' ') (stored.map lowerChar)).all fun term =>
      containsList term (jsToLower s.name) ||
      s.tags.any (fun tag => containsList term (jsToLower tag)) ||
      (s.notes ≠ "" && containsList term (jsToLower s.notes)) ||
      (s.code ≠ "" && containsList term (jsToLower s.code))

/-- `folderMatchesSearch(folder)`: the folder name must contain the entire
lower-cased query as a single substring (no splitting). -/
def folderMatchesSearch (query : String) (f : Folder) : Bool :=
  let stored := jsToLower query
  if stored = [] then true
  else containsList (stored.map lowerChar) (jsToLower f.name)

/-- Modelled from the spec's words for comparison: every
whitespace-separated term of the lower-cased query must occur in at least
one of name, tags, notes, code. -/
def specSnippetMatches (query : String) (s : Snippet) : Bool :=
  (splitChars (fun c => c.isWhitespace) (jsToLower query)).all fun term =>
    containsList term (jsToLower s.name) ||
    s.tags.any (fun tag => containsList term (jsToLower tag)) ||
    containsList term (jsToLower s.notes) ||
    containsList term (jsToLower s.code)

/-- Modelled from the spec's words for comparison: a folder matches when
every whitespace-separated term occurs in its name. -/
def specFolderMatches (query : String) (f : Folder) : Bool :=
  (splitChars (fun c => c.isWhitespace) (jsToLower query)).all fun term =>
    containsList term (jsToLower f.name)

def sampleSearchFolder : Folder := ⟨"f9", "retryhttp", none, "primary", none, 3⟩

def sampleSearchSnippet : Snippet :=
  ⟨"s9", "alpha", "f9", "beta", "plaintext", "", [], 3⟩

/-- C6 counterexample: the claim fails on the code in two ways. A folder
named "retryhttp" contains both terms of the query "http retry", so the
claimed rule says it matches, but `folderMatchesSearch` tests the whole
query as one substring and rejects it. And the query is split on single
spaces only, not on whitespace: with a tab between terms ("alpha\tbeta")
the claimed rule matches a snippet with "alpha" in its name and "beta" in
its code, but `snippetMatchesSearch` treats the whole string as one term
and rejects it. -/
theorem search_counterexample :
    (specFolderMatches "http retry" sampleSearchFolder = true ∧
      folderMatchesSearch "http retry" sampleSearchFolder = false) ∧
    (specSnippetMatches "alpha\tbeta" sampleSearchSnippet = true ∧
      snippetMatchesSearch "alpha\tbeta" sampleSearchSnippet = false) := by
  refine ⟨⟨?_, ?_⟩, ?_, ?_⟩ <;> decide

/-- C6 amended: snippet search is as claimed except that terms come from
splitting the lower-cased query on single space characters; folder search
does not split at all — a folder matches exactly when its lower-cased name
contains the entire lower-cased query as one contiguous substring. -/
theorem search_semantics :
    ∀ (q : String) (s : Snippet) (f : Folder),
      (snippetMatchesSearch q s = true ↔
        (jsToLower q = [] ∨
          ∀ term ∈ splitChars (fun c => c = ' ') ((jsToLower q).map lowerChar),
            (∃ pre post, jsToLower s.name = pre ++ term ++ post) ∨
            (∃ tag ∈ s.tags, ∃ pre post, jsToLower tag = pre ++ term ++ post) ∨
            (s.notes ≠ "" ∧ ∃ pre post, jsToLower s.notes = pre ++ term ++ post) ∨
            (s.code ≠ "" ∧ ∃ pre post, jsToLower s.code = pre ++ term ++ post))) ∧
      (folderMatchesSearch q f = true ↔
        (jsToLower q = [] ∨
          ∃ pre post, jsToLower f.name = pre ++ (jsToLower q).map lowerChar ++ post)) := by
  refine fun q s f => ⟨?_, ?_⟩
  · rw [snippetMatchesSearch]
    by_cases hq : jsToLower q = []
    · simp [hq]
    · rw [if_neg hq]
      simp only [hq, false_or, List.all_eq_true, Bool.or_eq_true, Bool.and_eq_true,
        List.any_eq_true, containsList_iff, decide_eq_true_eq, ne_eq, or_assoc]
  · rw [folderMatchesSearch]
    by_cases hq : jsToLower q = []
    · simp [hq]
    · rw [if_neg hq]
      simp only [hq, false_or, containsList_iff]

/-! ## Backup Mirror (`src/storage/LocalStorage.ts` lines 170-210, 405-460)

`updateBackupFile` writes a versioned envelope whose `data` is a flat
array: folders projected to `{id, name, parentId, type:'folder',
lastModified}` (dropping `order` and the record's own `type`), then
snippets with all fields.  `getBackupData` accepts ONLY that envelope — it
throws `Invalid backup file format` whenever `backupData.data` is not an
array, which is the case both for a `{folders, snippets}` object and for a
bare array.  Items are dynamic JSON records, modelled by `RawItem` with
every field optional. -/

structure RawItem where
  id : Option String
  name : Option String
  type : Option String
  parentId : Option (Option String)
  folderId : Option String
  code : Option String
  language : Option String
  notes : Option String
  tags : Option (List String)
  lastModified : Option Nat
  order : Option Nat
deriving DecidableEq, Repr

/-- The JSON object with no fields set. -/
def RawItem.empty : RawItem :=
  ⟨none, none, none, none, none, none, none, none, none, none, none⟩

/-- A canonical Folder as the runtime object it is (all its fields). -/
def folderObj (f : Folder) : RawItem :=
  { RawItem.empty with
    id := some f.id, name := some f.name, type := some f.type,
    parentId := some f.parentId, order := f.order,
    lastModified := some f.lastModified }

/-- A canonical Snippet as the runtime object it is. -/
def snippetObj (s : Snippet) : RawItem :=
  { RawItem.empty with
    id := some s.id, name := some s.name, folderId := some s.folderId,
    code := some s.code, language := some s.language, notes := some s.notes,
    tags := some s.tags, lastModified := some s.lastModified }

/-- The folder entry `updateBackupFile` puts into `data`:
`{id, name, parentId, type:'folder', lastModified: lm || Date.now()}` —
no `order`, and the folder's own `type` is overwritten by the
discriminator. -/
def folderBackupItem (t : Nat) (f : Folder) : RawItem :=
  { RawItem.empty with
    id := some f.id, name := some f.name, parentId := some f.parentId,
    type := some "folder",
    lastModified := some (if f.lastModified = 0 then t else f.lastModified) }

/-- The snippet entry `updateBackupFile` puts into `data`. -/
def snippetBackupItem (t : Nat) (s : Snippet) : RawItem :=
  { RawItem.empty with
    id := some s.id, name := some s.name, folderId := some s.folderId,
    code := some s.code,
    language := some (if s.language = "" then "plaintext" else s.language),
    notes := some s.notes, tags := some s.tags,
    lastModified := some (if s.lastModified = 0 then t else s.lastModified) }

structure BackupFile where
  version : String
  timestamp : String
  data : List RawItem
deriving DecidableEq, Repr

/-- `updateBackupFile` at write time `t`, ISO timestamp string `ts`. -/
def updateBackupFile (t : Nat) (ts : String) (folders : List Folder)
    (snippets : List Snippet) : BackupFile :=
  ⟨"1.0", ts, folders.map (folderBackupItem t) ++ snippets.map (snippetBackupItem t)⟩

/-- The three on-disk shapes the spec says readers accept. -/
inductive BackupInput where
  | envelope (file : BackupFile)
  | foldersSnippets (folders snippets : List RawItem)
  | bare (items : List RawItem)

/-- `const { type, ...folderData } = item`. -/
def stripType (i : RawItem) : RawItem := { i with type := none }

/-- `getBackupData`: requires `backupData.data` to be an array (only the
versioned envelope has it), splits items on `item.type === 'folder'`,
strips the discriminator from folders, and returns folders, snippets and
the envelope timestamp. -/
def getBackupData : BackupInput → Except String (List RawItem × List RawItem × String)
  | .envelope file =>
      .ok ((file.data.filter (fun i => i.type = some "folder")).map stripType,
        file.data.filter (fun i => ¬ i.type = some "folder"),
        file.timestamp)
  | .foldersSnippets _ _ => .error "Invalid backup file format"
  | .bare _ => .error "Invalid backup file format"

/-- What a folder actually looks like after encode + decode: `type` and
`order` are gone. -/
def decFolderObj (f : Folder) : RawItem :=
  { RawItem.empty with
    id := some f.id, name := some f.name, parentId := some f.parentId,
    lastModified := some f.lastModified }

/-- C4 counterexample: the round-trip is NOT the identity, and the decoder
does not accept all three shapes.  A folder with `type:'primary'` and an
`order` comes back without either, and `getBackupData` rejects both the
`{folders, snippets}` envelope and the bare array with
`Invalid backup file format`. -/
theorem backup_roundtrip_counterexample :
    getBackupData (.envelope (updateBackupFile 1000 "2024-01-01" [sampleFolderA] []))
        = .ok ([decFolderObj sampleFolderA], [], "2024-01-01") ∧
    decFolderObj sampleFolderA ≠ folderObj sampleFolderA ∧
    getBackupData (.foldersSnippets [folderObj sampleFolderA] [])
        = .error "Invalid backup file format" ∧
    getBackupData (.bare [folderObj sampleFolderA])
        = .error "Invalid backup file format" := by
  refine ⟨rfl, by decide, rfl, rfl⟩

/-- C4 amended: only the versioned `{version, timestamp, data:[...]}`
envelope is accepted by `getBackupData` (the `{folders, snippets}` shape
and the bare array are rejected with `Invalid backup file format`), and
decoding the writer's output returns every snippet exactly (for sanitized
snippets: non-empty language, present timestamp) while every folder comes
back with only `id`, `name`, `parentId`, `lastModified` — its `type` and
`order` fields are dropped by the round-trip. -/
theorem backup_roundtrip :
    ∀ (t : Nat) (ts : String) (folders : List Folder) (snippets : List Snippet),
      (∀ f ∈ folders, f.lastModified ≠ 0) →
      (∀ s ∈ snippets, s.language ≠ "" ∧ s.lastModified ≠ 0) →
      getBackupData (.envelope (updateBackupFile t ts folders snippets))
          = .ok (folders.map decFolderObj, snippets.map snippetObj, ts) ∧
      (∀ a b, getBackupData (.foldersSnippets a b) = .error "Invalid backup file format") ∧
      (∀ l, getBackupData (.bare l) = .error "Invalid backup file format") := by
  intro t ts folders snippets hf hs
  refine ⟨?_, fun a b => rfl, fun l => rfl⟩
  rw [getBackupData, updateBackupFile]
  simp only [List.filter_append, List.filter_map, List.map_append]
  have hffold : folders.filter ((fun i : RawItem => decide (i.type = some "folder")) ∘ folderBackupItem t)
      = folders :=
    List.filter_eq_self.mpr (fun f _ => by simp [folderBackupItem, RawItem.empty])
  have hfsnip : snippets.filter ((fun i : RawItem => decide (i.type = some "folder")) ∘ snippetBackupItem t)
      = [] := by
    rw [List.filter_eq_nil_iff]
    intro s _
    simp [snippetBackupItem, RawItem.empty]
  have hnfold : folders.filter ((fun i : RawItem => decide (¬ i.type = some "folder")) ∘ folderBackupItem t)
      = [] := by
    rw [List.filter_eq_nil_iff]
    intro f _
    simp [folderBackupItem, RawItem.empty]
  have hnsnip : snippets.filter ((fun i : RawItem => decide (¬ i.type = some "folder")) ∘ snippetBackupItem t)
      = snippets :=
    List.filter_eq_self.mpr (fun s _ => by simp [snippetBackupItem, RawItem.empty])
  rw [hffold, hfsnip, hnfold, hnsnip]
  simp only [List.map_nil, List.nil_append, List.append_nil, List.map_map]
  have e1 : List.map (stripType ∘ folderBackupItem t) folders
      = List.map decFolderObj folders := by
    apply List.map_congr_left
    intro f hfm
    simp only [Function.comp_apply, stripType, folderBackupItem, decFolderObj, RawItem.empty]
    rw [if_neg (hf f hfm)]
  have e2 : List.map (snippetBackupItem t) snippets
      = List.map snippetObj snippets := by
    apply List.map_congr_left
    intro s hsm
    simp only [snippetBackupItem, snippetObj, RawItem.empty]
    rw [if_neg (hs s hsm).1, if_neg (hs s hsm).2]
  rw [e1, e2]

/-- C4 witness: a concrete folder + snippet collection, encoded and
decoded. -/
theorem backup_roundtrip_witness :
    getBackupData (.envelope (updateBackupFile 1000 "T" [sampleFolderA] [sampleSnippetLocal]))
      = .ok ([decFolderObj sampleFolderA], [snippetObj sampleSnippetLocal], "T") := by
  exact (backup_roundtrip 1000 "T" [sampleFolderA] [sampleSnippetLocal]
    (by decide) (by decide)).1

/-! ## Canonical Store sanitization and deletion
(`src/storage/LocalStorage.ts` lines 85-167, 328-349)

Snippets are sanitized with falsy defaults both when read
(`getSnippetsData`) and when written (`saveSnippetsData`); on an
already-typed record only two fields can change: an empty `language`
becomes `"plaintext"` and a missing/zero `lastModified` becomes now.
Folders are read and written verbatim.  `deleteFolder` removes the folder
with the id AND every snippet whose `folderId` equals the id;
`deleteSnippet` removes the snippet with the id. -/

/-- The shared falsy-default sanitization of one snippet at time `t`. -/
def sanitizeSnippet (t : Nat) (s : Snippet) : Snippet :=
  { s with
    language := if s.language = "" then "plaintext" else s.language,
    lastModified := if s.lastModified = 0 then t else s.lastModified }

/-- `deleteFolder(id)` at time `t`: the stored folder and snippet
collections after the call (read-sanitize, filter, write-sanitize). -/
def deleteFolder (t : Nat) (id : String) (folders : List Folder)
    (snippets : List Snippet) : List Folder × List Snippet :=
  (folders.filter (fun f => ¬ f.id = id),
    (((snippets.map (sanitizeSnippet t)).filter
      (fun s => ¬ s.folderId = id)).map (sanitizeSnippet t)))

/-- `deleteSnippet(id)` at time `t`: the stored snippet collection after
the call. -/
def deleteSnippet (t : Nat) (id : String) (snippets : List Snippet) : List Snippet :=
  ((snippets.map (sanitizeSnippet t)).filter (fun s => ¬ s.id = id)).map (sanitizeSnippet t)

/-- A snippet whose `folderId` dangles: no record with id "f1" exists. -/
def sampleDanglingSnippet : Snippet :=
  ⟨"s7", "dangling", "f1", "x", "plaintext", "", [], 5⟩

/-- C10 counterexample: deletion with an id matching no stored record is
NOT always a no-op.  `deleteFolder` filters snippets on `folderId` even
when no folder with that id exists, so with a dangling reference the
snippet collection changes. -/
theorem delete_absent_id_counterexample :
    (∀ f ∈ ([] : List Folder), ¬ f.id = "f1") ∧
    (∀ s ∈ [sampleDanglingSnippet], ¬ s.id = "f1") ∧
    deleteFolder 100 "f1" [] [sampleDanglingSnippet] ≠ ([], [sampleDanglingSnippet]) := by
  refine ⟨by decide, by decide, by decide⟩

/-- C10 amended: `deleteSnippet(id)` with an absent id leaves the stored
snippets unchanged, and `deleteFolder(id)` with an absent id leaves both
collections unchanged PROVIDED no snippet references the id as its
`folderId` (the cascade filter runs regardless of whether the folder
exists); stored snippets are assumed in written (sanitized) form, since
both operations rewrite the collections through the sanitizer. -/
theorem delete_absent_id_noop :
    ∀ (t : Nat) (id : String) (folders : List Folder) (snippets : List Snippet),
      (∀ f ∈ folders, ¬ f.id = id) →
      (∀ s ∈ snippets, ¬ s.id = id ∧ ¬ s.folderId = id) →
      (∀ s ∈ snippets, sanitizeSnippet t s = s) →
      deleteFolder t id folders snippets = (folders, snippets) ∧
      deleteSnippet t id snippets = snippets := by
  intro t id folders snippets hf hs hsan
  have hmap : snippets.map (sanitizeSnippet t) = snippets := by
    rw [List.map_congr_left hsan, List.map_id']
  constructor
  · rw [deleteFolder, hmap]
    have h1 : folders.filter (fun f => ¬ f.id = id) = folders :=
      List.filter_eq_self.mpr (fun f hfm => by simpa using hf f hfm)
    have h2 : snippets.filter (fun s => ¬ s.folderId = id) = snippets :=
      List.filter_eq_self.mpr (fun s hsm => by simpa using (hs s hsm).2)
    rw [h1, h2, hmap]
  · rw [deleteSnippet, hmap]
    have h3 : snippets.filter (fun s => ¬ s.id = id) = snippets :=
      List.filter_eq_self.mpr (fun s hsm => by simpa using (hs s hsm).1)
    rw [h3, hmap]

/-- C10 witness: deleting an id that nothing stores or references is a
no-op on a concrete store. -/
theorem delete_absent_id_noop_witness :
    deleteFolder 100 "zzz" [sampleFolderA] [sampleSnippetLocal]
        = ([sampleFolderA], [sampleSnippetLocal]) ∧
    deleteSnippet 100 "zzz" [sampleSnippetLocal] = [sampleSnippetLocal] := by
  exact delete_absent_id_noop 100 "zzz" [sampleFolderA] [sampleSnippetLocal]
    (by decide) (by decide) (by decide)

/-! ## Field-level mutations (`src/storage/LocalStorage.ts` lines 351-389,
474-502, 656-667, 702-765)

`updateSnippet`, `renameFolder`, `renameSnippet` and `updateFolderParent`
all stamp `lastModified: Date.now()` on the mutated record.
`updateFolderOrder` swaps only the `order` fields of two siblings (sorted
stably by `order || 0`, as JavaScript's stable `Array.sort`) and never
touches `lastModified`. -/

/-- Replace the first element satisfying `p` (models `findIndex` followed
by an assignment at that index). -/
def replaceFirst (p : α → Bool) (g : α → α) : List α → List α
  | [] => []
  | x :: xs => if p x then g x :: xs else x :: replaceFirst p g xs

structure SnippetUpdate where
  id : String
  code : Option String
  notes : Option String
  language : Option String
  tags : Option (List String)
  folderId : Option String
deriving DecidableEq, Repr

/-- The record built at `LocalStorage.ts:359-367`: each provided field
replaces the current one and `lastModified` becomes now. -/
def applyUpdate (t : Nat) (u : SnippetUpdate) (s : Snippet) : Snippet :=
  { s with
    code := u.code.getD s.code,
    notes := u.notes.getD s.notes,
    language := u.language.getD s.language,
    tags := u.tags.getD s.tags,
    folderId := u.folderId.getD s.folderId,
    lastModified := t }

/-- `updateSnippet(update)` at time `t`: reads the sanitized snippets,
replaces the first one with the update's id, errors when absent, and
writes through the sanitizer. -/
def updateSnippet (t : Nat) (u : SnippetUpdate) (snippets : List Snippet) :
    Except String (List Snippet) :=
  let sanitized := snippets.map (sanitizeSnippet t)
  if sanitized.any (fun s => s.id = u.id) then
    .ok ((replaceFirst (fun s => s.id = u.id) (applyUpdate t u) sanitized).map
      (sanitizeSnippet t))
  else .error "Snippet not found"

/-- `renameFolder(folderId, newName)` at time `t` (no sanitization on the
folder file; a missing id silently leaves the collection as is). -/
def renameFolder (t : Nat) (fid newName : String) (folders : List Folder) : List Folder :=
  replaceFirst (fun f => f.id = fid)
    (fun f => { f with name := newName, lastModified := t }) folders

/-- `renameSnippet(snippetId, newName)` at time `t` (through the snippet
sanitizer; a missing id writes nothing). -/
def renameSnippet (t : Nat) (sid newName : String) (snippets : List Snippet) : List Snippet :=
  let sanitized := snippets.map (sanitizeSnippet t)
  if sanitized.any (fun s => s.id = sid) then
    (replaceFirst (fun s => s.id = sid)
      (fun s => { s with name := newName, lastModified := t }) sanitized).map
      (sanitizeSnippet t)
  else snippets

/-- `updateFolderParent(folderId, newParentId)` at time `t`. -/
def updateFolderParent (t : Nat) (fid : String) (newParent : Option String)
    (folders : List Folder) : List Folder :=
  folders.map (fun f =>
    if f.id = fid then { f with parentId := newParent, lastModified := t } else f)

/-- Stable insertion of `x` after every element `le`-below-or-equal to it. -/
def insertSorted (le : α → α → Bool) (x : α) : List α → List α
  | [] => [x]
  | y :: ys => if le y x then y :: insertSorted le x ys else x :: y :: ys

/-- JavaScript's stable `Array.sort` with comparator
`(a.order || 0) - (b.order || 0)`. -/
def jsSortByOrder (l : List Folder) : List Folder :=
  l.foldl (fun acc f =>
    insertSorted (fun a b => a.order.getD 0 ≤ b.order.getD 0) f acc) []

inductive MoveDir where
  | up
  | down
deriving DecidableEq, Repr

/-- `updateFolderOrder(folderId, direction)`: sort the siblings stably by
`order || 0`, find the folder and its neighbour in `direction`, initialize
all sibling orders to `index * 100` when the moved folder has no `order`
yet, then swap the two orders.  `lastModified` is never written. -/
def updateFolderOrder (_t : Nat) (fid : String) (dir : MoveDir)
    (folders : List Folder) : Except String (List Folder) :=
  match folders.find? (fun f => f.id = fid) with
  | none => .error "Folder not found"
  | some current =>
    let siblings := jsSortByOrder (folders.filter (fun f => f.parentId = current.parentId))
    match siblings.findIdx? (fun f => f.id = fid) with
    | none => .error "Current folder not found in siblings"
    | some ci =>
      let ti : Int := match dir with
        | .up => (ci : Int) - 1
        | .down => (ci : Int) + 1
      if ti < 0 ∨ (siblings.length : Int) ≤ ti then .ok folders
      else
        match siblings[ti.toNat]? with
        | none => .ok folders
        | some target =>
          if current.order = none then
            .ok (folders.map (fun f =>
              if f.id = current.id then { f with order := some (ti.toNat * 100) }
              else if f.id = target.id then { f with order := some (ci * 100) }
              else
                match siblings.findIdx? (fun g => g.id = f.id) with
                | some k => { f with order := some (k * 100) }
                | none => f))
          else
            .ok (folders.map (fun f =>
              if f.id = current.id then { f with order := target.order }
              else if f.id = target.id then { f with order := current.order }
              else f))

theorem find?_replaceFirst (p : α → Bool) (g : α → α) (l : List α) (x : α)
    (hf : l.find? p = some x) (hg : ∀ y, p y = true → p (g y) = true) :
    (replaceFirst p g l).find? p = some (g x) := by
  induction l with
  | nil => cases hf
  | cons a as ih =>
    by_cases ha : p a = true
    · rw [List.find?_cons_of_pos _ ha] at hf
      injection hf with hf
      subst hf
      rw [replaceFirst, if_pos ha]
      rw [List.find?_cons_of_pos _ (hg a ha)]
    · rw [List.find?_cons_of_neg _ ha] at hf
      rw [replaceFirst, if_neg ha, List.find?_cons_of_neg _ ha]
      exact ih hf

def sampleFolderC : Folder := ⟨"c", "C", none, "primary", some 1, 20⟩

/-- C8 counterexample: the claim fails on the code for sibling
re-ordering.  Moving folder "c" (lastModified 20) up at time 1000 swaps
the `order` fields with its sibling but leaves `lastModified` at 20, not
the mutation time 1000. -/
theorem mutation_timestamps_counterexample :
    updateFolderOrder 1000 "c" MoveDir.up [sampleFolderA, sampleFolderC]
        = Except.ok [⟨"a", "A", none, "primary", some 1, 10⟩,
          ⟨"c", "C", none, "primary", some 0, 20⟩] ∧
    (20 : Nat) ≠ 1000 := by
  refine ⟨by rfl, by decide⟩

/-- C8 amended: `updateSnippet`, `renameFolder`, `renameSnippet` and
`updateFolderParent` set the mutated record's `lastModified` to the
mutation time (hence it does not decrease whenever the clock is at or
ahead of the record's old timestamp); `updateFolderOrder` (sibling
re-ordering) swaps only `order` fields and leaves every folder's
`lastModified` exactly unchanged. -/
theorem mutation_timestamps :
    (∀ (t : Nat) (u : SnippetUpdate) (snippets : List Snippet) (s₀ : Snippet),
      (snippets.map (sanitizeSnippet t)).find? (fun s => s.id = u.id) = some s₀ →
      s₀.lastModified ≤ t →
      ∃ res, updateSnippet t u snippets = Except.ok res ∧
        res.find? (fun s => s.id = u.id)
          = some (sanitizeSnippet t (applyUpdate t u s₀)) ∧
        (sanitizeSnippet t (applyUpdate t u s₀)).lastModified = t ∧
        s₀.lastModified ≤ (sanitizeSnippet t (applyUpdate t u s₀)).lastModified) ∧
    (∀ (t : Nat) (fid nm : String) (folders : List Folder) (f₀ : Folder),
      folders.find? (fun f => f.id = fid) = some f₀ →
      (renameFolder t fid nm folders).find? (fun f => f.id = fid)
        = some { f₀ with name := nm, lastModified := t }) ∧
    (∀ (t : Nat) (sid nm : String) (snippets : List Snippet) (s₀ : Snippet),
      (snippets.map (sanitizeSnippet t)).find? (fun s => s.id = sid) = some s₀ →
      (renameSnippet t sid nm snippets).find? (fun s => s.id = sid)
        = some (sanitizeSnippet t { s₀ with name := nm, lastModified := t })) ∧
    (∀ (t : Nat) (fid : String) (p : Option String) (folders : List Folder),
      ∀ f' ∈ updateFolderParent t fid p folders, f'.id = fid → f'.lastModified = t) ∧
    (∀ (t : Nat) (fid : String) (dir : MoveDir) (folders res : List Folder),
      updateFolderOrder t fid dir folders = Except.ok res →
      res.map (fun f => (f.id, f.lastModified))
        = folders.map (fun f => (f.id, f.lastModified))) := by
  refine ⟨?_, ?_, ?_, ?_, ?_⟩
  · intro t u snippets s₀ hf hle
    have hany : (snippets.map (sanitizeSnippet t)).any (fun s => s.id = u.id) = true := by
      rw [List.any_eq_true]
      exact ⟨s₀, List.mem_of_find?_eq_some hf, by simpa using List.find?_some hf⟩
    have hlm : (sanitizeSnippet t (applyUpdate t u s₀)).lastModified = t := by
      simp [sanitizeSnippet, applyUpdate]
    refine ⟨(replaceFirst (fun s => s.id = u.id) (applyUpdate t u)
      (snippets.map (sanitizeSnippet t))).map (sanitizeSnippet t), ?_, ?_, hlm, ?_⟩
    · rw [updateSnippet]
      simp only [hany, if_true]
    · rw [List.find?_map]
      have hpred : (fun s => decide ((sanitizeSnippet t s).id = u.id))
          = (fun s : Snippet => decide (s.id = u.id)) := rfl
      rw [show ((fun s : Snippet => decide (s.id = u.id)) ∘ sanitizeSnippet t)
          = (fun s : Snippet => decide (s.id = u.id)) from rfl]
      rw [find?_replaceFirst (fun s => s.id = u.id) (applyUpdate t u) _ s₀ hf
        (fun y hy => by simpa [applyUpdate] using hy)]
      rfl
    · rw [hlm]
      exact hle
  · intro t fid nm folders f₀ hf
    exact find?_replaceFirst _ _ _ _ hf (fun y hy => by simpa using hy)
  · intro t sid nm snippets s₀ hf
    have hany : (snippets.map (sanitizeSnippet t)).any (fun s => s.id = sid) = true := by
      rw [List.any_eq_true]
      exact ⟨s₀, List.mem_of_find?_eq_some hf, by simpa using List.find?_some hf⟩
    rw [renameSnippet]
    simp only [hany, if_true]
    rw [List.find?_map]
    rw [show ((fun s : Snippet => decide (s.id = sid)) ∘ sanitizeSnippet t)
        = (fun s : Snippet => decide (s.id = sid)) from rfl]
    rw [find?_replaceFirst (fun s => s.id = sid)
      (fun s => { s with name := nm, lastModified := t }) _ s₀ hf
      (fun y hy => by simpa using hy)]
    rfl
  · intro t fid p folders f' hf' hid
    rcases List.mem_map.mp hf' with ⟨f, hfm, rfl⟩
    by_cases h : f.id = fid
    · simp [h]
    · rw [if_neg h] at hid
      exact absurd hid h
  · intro t fid dir folders res h
    simp only [updateFolderOrder] at h
    split at h
    · exact Except.noConfusion h
    · split at h
      · exact Except.noConfusion h
      · split at h
        · injection h with h
          subst h
          rfl
        · split at h
          · injection h with h
            subst h
            rfl
          · split at h
            · injection h with h
              subst h
              rw [List.map_map]
              apply List.map_congr_left
              intro f _
              dsimp only [Function.comp]
              split
              · rfl
              · split
                · rfl
                · split <;> rfl
            · injection h with h
              subst h
              rw [List.map_map]
              apply List.map_congr_left
              intro f _
              dsimp only [Function.comp]
              split
              · rfl
              · split <;> rfl

def sampleUpdate : SnippetUpdate := ⟨"s1", some "newcode", none, none, none, none⟩

/-- C8 witness: a concrete content edit stamps the mutation time, and a
concrete sibling re-order preserves every (id, lastModified) pair. -/
theorem mutation_timestamps_witness :
    (∃ res, updateSnippet 500 sampleUpdate [sampleSnippetLocal] = Except.ok res ∧
      res.find? (fun s => s.id = "s1")
        = some (sanitizeSnippet 500 (applyUpdate 500 sampleUpdate sampleSnippetLocal)) ∧
      (sanitizeSnippet 500 (applyUpdate 500 sampleUpdate sampleSnippetLocal)).lastModified = 500 ∧
      sampleSnippetLocal.lastModified
        ≤ (sanitizeSnippet 500 (applyUpdate 500 sampleUpdate sampleSnippetLocal)).lastModified) ∧
    ([⟨"a", "A", none, "primary", some 1, 10⟩,
        ⟨"c", "C", none, "primary", some 0, 20⟩] : List Folder).map
        (fun f => (f.id, f.lastModified))
      = [sampleFolderA, sampleFolderC].map (fun f => (f.id, f.lastModified)) := by
  constructor
  · exact mutation_timestamps.1 500 sampleUpdate [sampleSnippetLocal] sampleSnippetLocal
      (by decide) (by decide)
  · exact mutation_timestamps.2.2.2.2 1000 "c" MoveDir.up [sampleFolderA, sampleFolderC]
      _ (by rfl)

/-! ## Remote Replica Channel (`src/storage/GistStorage.ts` lines 151-295)

`sync` first prunes mappings whose snippet no longer exists locally, then
for each snippet either PATCHes the mapped gist, or — when the mapping is
absent, or the PATCH target answers 404 — POSTs a new gist (the server
issues a fresh id, modelled by `nextId`) and records the mapping.
The gist body is `JSON.stringify({metadata, code})` plus a description and
file name; it is modelled structurally. -/

structure GistContent where
  name : String
  folder : String
  language : String
  notes : String
  id : String
  folderId : String
  code : String
deriving DecidableEq, Repr

structure GistDoc where
  description : String
  fileName : String
  content : GistContent
deriving DecidableEq, Repr

/-- `VS Code Snippet: ${name} (${folder?.name || 'No Folder'})`. -/
def gistDescription (folders : List Folder) (s : Snippet) : String :=
  "VS Code Snippet: " ++ s.name ++ " (" ++
    (((folders.find? (fun f => f.id = s.folderId)).map (·.name)).getD "No Folder") ++ ")"

/-- `${snippet.name}${snippet.language ? '.' + snippet.language : '.txt'}`. -/
def gistFileName (s : Snippet) : String :=
  s.name ++ (if s.language = "" then ".txt" else "." ++ s.language)

/-- The metadata + code payload written into the gist file. -/
def gistContentOf (folders : List Folder) (s : Snippet) : GistContent :=
  { name := s.name,
    folder := ((folders.find? (fun f => f.id = s.folderId)).map (·.name)).getD "No Folder",
    language := if s.language = "" then "plaintext" else s.language,
    notes := s.notes, id := s.id, folderId := s.folderId, code := s.code }

/-- The complete remote document pushed for one snippet. -/
def pushDoc (folders : List Folder) (s : Snippet) : GistDoc :=
  ⟨gistDescription folders s, gistFileName s, gistContentOf folders s⟩

/-- `delete gistMapping[snippetId]`. -/
def jmDelete (m : JMap α) (k : String) : JMap α :=
  m.filter (fun p => ¬ p.1 = k)

/-- Does a remote document with this server id exist? -/
def nmHas (r : List (Nat × GistDoc)) (g : Nat) : Bool :=
  r.any (fun p => p.1 = g)

/-- PATCH: overwrite the document stored under an existing server id. -/
def nmUpdate (r : List (Nat × GistDoc)) (g : Nat) (d : GistDoc) : List (Nat × GistDoc) :=
  r.map (fun p => if p.1 = g then (g, d) else p)

/-- The remote side: per-item documents, the snippet-id → gist-id mapping,
and the next server-issued id. -/
structure GistState where
  remote : List (Nat × GistDoc)
  mapping : JMap Nat
  nextId : Nat
deriving DecidableEq, Repr

/-- The per-snippet body of `GistStorage.sync` (lines 190-277): PATCH the
mapped gist; on 404 drop the mapping and POST a fresh one, recording the
new mapping; with no mapping, POST and record. -/
def pushSnippet (folders : List Folder) (st : GistState) (s : Snippet) : GistState :=
  let doc := pushDoc folders s
  match jmGet st.mapping s.id with
  | some g =>
    if nmHas st.remote g then
      { st with remote := nmUpdate st.remote g doc }
    else
      { remote := st.remote ++ [(st.nextId, doc)],
        mapping := jmSet (jmDelete st.mapping s.id) s.id st.nextId,
        nextId := st.nextId + 1 }
  | none =>
      { remote := st.remote ++ [(st.nextId, doc)],
        mapping := jmSet st.mapping s.id st.nextId,
        nextId := st.nextId + 1 }

/-- Orphan pruning (lines 168-187): every mapping whose snippet id is not
local any more is deleted remotely and removed from the mapping. -/
def pruneMappings (localIds : List String) (st : GistState) : GistState :=
  { st with
    remote := st.remote.filter (fun p =>
      ¬ (st.mapping.filter (fun q => ¬ localIds.contains q.1)).any (fun q => q.2 = p.1)),
    mapping := st.mapping.filter (fun q => localIds.contains q.1) }

/-- `GistStorage.sync(localData)`: prune, then push every snippet. -/
def gistSync (folders : List Folder) (snippets : List Snippet) (st : GistState) : GistState :=
  snippets.foldl (pushSnippet folders) (pruneMappings (snippets.map (·.id)) st)

theorem jmGet_append_of_not_has (m : JMap α) (k : String) (v : α)
    (h : jmHas m k = false) : jmGet (m ++ [(k, v)]) k = some v := by
  rw [← jmSet_of_not_has m k v h]
  exact jmGet_set_self m k v

/-- C9: pushing a snippet with no mapping creates exactly one new remote
document (under the fresh server id) and exactly one new mapping entry;
pushing the same snippet again PATCHes that same document — the mapping
and the set of remote ids are unchanged, no second document is created.
A mapped document that no longer exists remotely is recreated under a
fresh id with the mapping updated, and only then. -/
theorem gist_push_once_then_update :
    (∀ (folders folders' : List Folder) (st : GistState) (s s' : Snippet),
      jmGet st.mapping s.id = none →
      s'.id = s.id →
      (pushSnippet folders st s).remote = st.remote ++ [(st.nextId, pushDoc folders s)] ∧
      (pushSnippet folders st s).mapping = st.mapping ++ [(s.id, st.nextId)] ∧
      (pushSnippet folders st s).nextId = st.nextId + 1 ∧
      pushSnippet folders' (pushSnippet folders st s) s'
        = { remote := nmUpdate (pushSnippet folders st s).remote st.nextId (pushDoc folders' s'),
            mapping := (pushSnippet folders st s).mapping,
            nextId := (pushSnippet folders st s).nextId }) ∧
    (∀ (folders : List Folder) (st : GistState) (s : Snippet) (g : Nat),
      jmGet st.mapping s.id = some g →
      nmHas st.remote g = false →
      pushSnippet folders st s
        = { remote := st.remote ++ [(st.nextId, pushDoc folders s)],
            mapping := jmSet (jmDelete st.mapping s.id) s.id st.nextId,
            nextId := st.nextId + 1 }) := by
  constructor
  · intro folders folders' st s s' hget hid
    have hhas : jmHas st.mapping s.id = false := by
      rw [← jmGet_isSome_eq_has, hget]
      rfl
    have hstep : pushSnippet folders st s
        = { remote := st.remote ++ [(st.nextId, pushDoc folders s)],
            mapping := jmSet st.mapping s.id st.nextId,
            nextId := st.nextId + 1 } := by
      rw [pushSnippet]
      simp only [hget]
    have hmap : jmSet st.mapping s.id st.nextId = st.mapping ++ [(s.id, st.nextId)] :=
      jmSet_of_not_has st.mapping s.id st.nextId hhas
    refine ⟨by rw [hstep], by rw [hstep]; exact hmap, by rw [hstep], ?_⟩
    have hget2 : jmGet (pushSnippet folders st s).mapping s'.id = some st.nextId := by
      rw [hstep, hid]
      exact jmGet_set_self st.mapping s.id st.nextId
    have hhas2 : nmHas (pushSnippet folders st s).remote st.nextId = true := by
      rw [hstep]
      simp [nmHas, List.any_append]
    rw [pushSnippet]
    simp only [hget2, hhas2, if_true]
  · intro folders st s g hget hhas
    rw [pushSnippet]
    simp only [hget, hhas, Bool.false_eq_true, if_false]

/-- C9 witness: starting from an empty remote state, the first push of a
snippet creates document 0 and the mapping s1 ↦ 0; the second push (with
edited code) overwrites document 0 and changes neither the mapping nor
the number of documents. -/
theorem gist_push_once_then_update_witness :
    (pushSnippet [sampleFolderA] ⟨[], [], 0⟩ sampleSnippetLocal).remote
        = [] ++ [(0, pushDoc [sampleFolderA] sampleSnippetLocal)] ∧
    (pushSnippet [sampleFolderA] ⟨[], [], 0⟩ sampleSnippetLocal).mapping
        = [] ++ [("s1", 0)] ∧
    (pushSnippet [sampleFolderA] ⟨[], [], 0⟩ sampleSnippetLocal).nextId = 0 + 1 ∧
    pushSnippet [sampleFolderA] (pushSnippet [sampleFolderA] ⟨[], [], 0⟩ sampleSnippetLocal)
        sampleSnippetInc150
      = { remote := nmUpdate (pushSnippet [sampleFolderA] ⟨[], [], 0⟩ sampleSnippetLocal).remote
            0 (pushDoc [sampleFolderA] sampleSnippetInc150),
          mapping := (pushSnippet [sampleFolderA] ⟨[], [], 0⟩ sampleSnippetLocal).mapping,
          nextId := (pushSnippet [sampleFolderA] ⟨[], [], 0⟩ sampleSnippetLocal).nextId } := by
  exact gist_push_once_then_update.1 [sampleFolderA] [sampleFolderA] ⟨[], [], 0⟩
    sampleSnippetLocal sampleSnippetInc150 (by rfl) (by rfl)

/-! ## Import (`src/storage/LocalStorage.ts` lines 537-654 and
`src/extension.ts` lines 786-907)

`LocalStorage.importData` validates the whole file — envelope fields,
`data.folders` / `data.snippets` arrays, every record's required fields —
and throws before reading or writing the store on any failure; only after
full validation does it merge and save.  The `snippets.syncFromBackup`
command handler is different: it accepts any version-1.0 `data` array,
performs NO per-record validation, and on confirmation calls `syncData`
with the file's records, replacing the store wholesale. -/

inductive ImportPayload where
  | arrayPayload (items : List RawItem)
  | objPayload (folders snippets : Option (List RawItem))

structure ImportFile where
  version : Option String
  data : Option ImportPayload

/-- A validated imported folder as the object it becomes (validation has
filled `lastModified`); the fallback defaults are never reached on
validated input. -/
def rawToFolder (t : Nat) (r : RawItem) : Folder :=
  { id := r.id.getD "", name := r.name.getD "",
    parentId := r.parentId.getD none, type := (r.type).getD "",
    order := r.order,
    lastModified := match r.lastModified with
      | none => t
      | some n => if n = 0 then t else n }

def rawToSnippet (t : Nat) (r : RawItem) : Snippet :=
  { id := r.id.getD "", name := r.name.getD "",
    folderId := r.folderId.getD "", code := r.code.getD "",
    language := r.language.getD "", notes := r.notes.getD "",
    tags := r.tags.getD [],
    lastModified := match r.lastModified with
      | none => t
      | some n => if n = 0 then t else n }

/-- Per-folder validation (`LocalStorage.ts:564-575`): id, name present
and non-empty, type one of primary/secondary, parentId null or a string
(absent fails), `lastModified` filled when falsy. -/
def checkFolders (t : Nat) : Nat → List RawItem → Except String (List Folder)
  | _, [] => .ok []
  | i, r :: rs =>
    if r.id.getD "" = "" ∨ r.name.getD "" = "" ∨
        ¬ (r.type = some "primary" ∨ r.type = some "secondary") ∨
        r.parentId = none then
      .error ("Invalid folder data at index " ++ toString i)
    else do
      let rest ← checkFolders t (i + 1) rs
      return rawToFolder t r :: rest

/-- Per-snippet validation (`LocalStorage.ts:578-589`): id, name,
folderId present and non-empty, `code` present as a string (may be
empty). -/
def checkSnippets (t : Nat) : Nat → List RawItem → Except String (List Snippet)
  | _, [] => .ok []
  | i, r :: rs =>
    if r.id.getD "" = "" ∨ r.name.getD "" = "" ∨ r.code = none ∨
        r.folderId.getD "" = "" then
      .error ("Invalid snippet data at index " ++ toString i)
    else do
      let rest ← checkSnippets t (i + 1) rs
      return rawToSnippet t r :: rest

/-- The whole validation prefix of `importData`: everything that runs
before the store is first read. -/
def validateImport (t : Nat) (input : ImportFile) :
    Except String (List Folder × List Snippet) :=
  match input.version with
  | none => .error "Invalid import file format"
  | some v =>
    if v = "" then .error "Invalid import file format"
    else
      match input.data with
      | none => .error "Invalid import file format"
      | some payload =>
        let fs : Option (List RawItem) × Option (List RawItem) :=
          match payload with
          | .arrayPayload _ => (none, none)
          | .objPayload f s => (f, s)
        match fs.1 with
        | none => .error "Invalid folders data"
        | some rawFolders =>
          match fs.2 with
          | none => .error "Invalid snippets data"
          | some rawSnippets => do
            let impF ← checkFolders t 0 rawFolders
            let impS ← checkSnippets t 0 rawSnippets
            return (impF, impS)

/-- `importData(jsonData)` at time `t` against the current store: the
status together with the store contents after the call.  Validation
failures are re-thrown as `Failed to import data: …` and happen before
the store is read; on success both collections are merged with the
timestamp rule and saved (snippets through the sanitizer). -/
def importData (t : Nat) (input : ImportFile) (storeF : List Folder)
    (storeS : List Snippet) : Except String Unit × List Folder × List Snippet :=
  match validateImport t input with
  | .error e => (.error ("Failed to import data: " ++ e), storeF, storeS)
  | .ok (impF, impS) =>
    (.ok (),
      mergeRecords Folder.id Folder.lastModified
        (fun f n => { f with lastModified := n }) t storeF impF,
      (mergeRecords Snippet.id Snippet.lastModified
        (fun s n => { s with lastModified := n }) t storeS impS).map (sanitizeSnippet t))

/-- The `snippets.syncFromBackup` command handler: `none` models
"rejected, nothing saved"; `some (folders, snippets)` models "the store is
replaced with exactly these records" (after the user confirms).  Records
are NOT validated: items without an id pass straight through. -/
def syncFromBackupCmd (input : BackupInput) : Option (List RawItem × List RawItem) :=
  match input with
  | .envelope file =>
    if file.version = "1.0" then
      let folders := (file.data.filter (fun i => i.type = some "folder")).map
        (fun i => { RawItem.empty with
          id := i.id, name := i.name, parentId := i.parentId,
          lastModified := i.lastModified })
      let snippets := (file.data.filter (fun i => ¬ i.type = some "folder")).map
        (fun i => { RawItem.empty with
          id := i.id, name := i.name, folderId := i.folderId,
          code := some (i.code.getD ""),
          language := some (match i.language with
            | none => "plaintext"
            | some l => if l = "" then "plaintext" else l),
          notes := some (i.notes.getD ""), tags := some (i.tags.getD []),
          lastModified := i.lastModified })
      if folders = [] ∧ snippets = [] then none
      else some (folders, snippets)
    else none
  | _ => none

/-- A version-1.0 backup record that lacks an `id`. -/
def badImportItem : RawItem :=
  { RawItem.empty with
    name := some "x", folderId := some "f", code := some "y",
    lastModified := some 5 }

/-- C7 counterexample: through the cited `snippets.syncFromBackup`
command handler a `{version:"1.0", data:[record-without-id]}` file is NOT
rejected: the operation succeeds and the store is replaced with the
id-less record, so the prior collections are lost rather than preserved. -/
theorem import_atomicity_counterexample :
    syncFromBackupCmd (.envelope ⟨"1.0", "TS", [badImportItem]⟩)
        = some ([], [{ RawItem.empty with
            name := some "x", folderId := some "f", code := some "y",
            language := some "plaintext", notes := some "", tags := some ([] : List String),
            lastModified := some 5 }]) ∧
    ({ RawItem.empty with
        name := some "x", folderId := some "f", code := some "y",
        language := some "plaintext", notes := some "", tags := some ([] : List String),
        lastModified := some 5 } : RawItem).id = none := by
  exact ⟨by rfl, by rfl⟩

/-- C7 amended: atomicity holds for `LocalStorage.importData` — every
input that fails format validation is rejected with `Failed to import
data: …` before any merge is attempted and both store collections are
returned exactly unchanged (the scenario file with `data` as an array is
such an input, rejected as `Invalid folders data`).  The
`snippets.syncFromBackup` command handler, however, does not validate
records: a version-1.0 file whose record lacks an id is accepted and the
store is replaced with the file's contents. -/
theorem import_atomicity :
    ∀ (t : Nat) (input : ImportFile) (storeF : List Folder)
      (storeS : List Snippet) (e : String),
      validateImport t input = .error e →
      importData t input storeF storeS
        = (.error ("Failed to import data: " ++ e), storeF, storeS) := by
  intro t input storeF storeS e hv
  rw [importData, hv]

/-- C7 witness: the spec's scenario file `{version:"1.0",
data:[record-without-id]}` is rejected by `importData` and the store is
unchanged. -/
theorem import_atomicity_witness :
    importData 100 ⟨some "1.0", some (.arrayPayload [badImportItem])⟩
        [sampleFolderA] [sampleSnippetLocal]
      = (.error ("Failed to import data: " ++ "Invalid folders data"),
        [sampleFolderA], [sampleSnippetLocal]) := by
  exact import_atomicity 100 ⟨some "1.0", some (.arrayPayload [badImportItem])⟩
    [sampleFolderA] [sampleSnippetLocal] "Invalid folders data" (by rfl)
